import Mathlib

/-!
Verification of the gpxshift time-shift core (src/gpxshift.py).

The development shallowly embeds the program:
* document text is `List Char`;
* `datetime.timedelta` values are signed integer second counts (`Int`) —
  the program only ever builds them from integer hour counts;
* `datetime.datetime` values are `DT` records, with epoch-second
  arithmetic via the standard civil-calendar conversions;
* fallible code (`strptime` raising `ValueError`, datetime overflow,
  file writes) is modelled with `Except String`;
* `pathlib.PosixPath` values are `SPath` records (absolute flag plus the
  normalized component list);
* the interactive session object `GPXShiftApp` is an explicit record, and
  its mutating methods are functions returning the updated record.
-/

namespace GpxShift

/-! ## Timestamp text shape: `\d{4}-\d{2}-\d{2}T\d{2}:\d{2}:\d{2}Z` -/

/-- The literal characters of the fixed `<time>` opening tag in
`GPX_TIME_PATTERN` (src/gpxshift.py line 30). -/
def timeOpenTag : List Char := ['<', 't', 'i', 'm', 'e', '>']

/-- The literal characters of the fixed `</time>` closing tag in
`GPX_TIME_PATTERN` (src/gpxshift.py line 30). -/
def timeCloseTag : List Char := ['<', '/', 't', 'i', 'm', 'e', '>']

/-- The punctuation the timestamp pattern demands at a given offset
(offsets 0-19); `none` means the offset must hold a decimal digit. -/
def tsPunct (i : Nat) : Option Char :=
  if i = 4 ∨ i = 7 then some '-'
  else if i = 10 then some 'T'
  else if i = 13 ∨ i = 16 then some ':'
  else if i = 19 then some 'Z'
  else none

/-- Whether a character list matches the inner timestamp part of
`GPX_TIME_PATTERN`, i.e. `\d{4}-\d{2}-\d{2}T\d{2}:\d{2}:\d{2}Z`:
exactly 20 characters, digits everywhere except the fixed punctuation. -/
def tsShape (cs : List Char) : Bool :=
  cs.length = 20 &&
    (List.range 20).all (fun i =>
      match cs[i]? with
      | none => false
      | some c =>
        match tsPunct i with
        | some p => c = p
        | none => c.isDigit)

/-! ## Parsed timestamps and calendar arithmetic -/

/-- A parsed UTC timestamp, as produced by
`datetime.datetime.strptime(s, "%Y-%m-%dT%H:%M:%SZ")`. -/
structure DT where
  year : Nat
  month : Nat
  day : Nat
  hour : Nat
  minute : Nat
  second : Nat
deriving DecidableEq

def isLeap (y : Nat) : Bool :=
  y % 4 = 0 && (y % 100 ≠ 0 || y % 400 = 0)

def daysInMonth (y m : Nat) : Nat :=
  if m = 2 then (if isLeap y then 29 else 28)
  else if m = 4 ∨ m = 6 ∨ m = 9 ∨ m = 11 then 30
  else 31

/-- Numeric value of a decimal digit character. -/
def digitVal (c : Char) : Nat := c.toNat - '0'.toNat

/-- The character at an index, with a default used only off the end. -/
def charAtD (cs : List Char) (i : Nat) : Char := (cs[i]?).getD ' '

def num2 (cs : List Char) (i : Nat) : Nat :=
  digitVal (charAtD cs i) * 10 + digitVal (charAtD cs (i + 1))

def num4 (cs : List Char) (i : Nat) : Nat :=
  num2 cs i * 100 + num2 cs (i + 2)

/-- Strict parsing of the 20 timestamp characters, modelling the
`datetime.strptime(timestamp_str, "%Y-%m-%dT%H:%M:%SZ")` call at
src/gpxshift.py line 40: the text must match the format exactly and
every field must be a value `datetime.datetime` accepts (month 1-12, day
within the month, hour below 24, minute and second below 60, year at
least 1); otherwise `strptime` raises `ValueError`, modelled as `none`. -/
def parseTs (cs : List Char) : Option DT :=
  if tsShape cs then
    let y := num4 cs 0
    let mo := num2 cs 5
    let d := num2 cs 8
    let h := num2 cs 11
    let mi := num2 cs 14
    let s := num2 cs 17
    if 1 ≤ y ∧ 1 ≤ mo ∧ mo ≤ 12 ∧ 1 ≤ d ∧ d ≤ daysInMonth y mo
        ∧ h ≤ 23 ∧ mi ≤ 59 ∧ s ≤ 59 then
      some ⟨y, mo, d, h, mi, s⟩
    else none
  else none

/-- Days since 1970-01-01 of a civil date (Howard Hinnant's
`days_from_civil`), used to give `datetime` arithmetic an exact model. -/
def daysFromCivil (y : Int) (m d : Nat) : Int :=
  let yy : Int := if m ≤ 2 then y - 1 else y
  let era : Int := Int.fdiv yy 400
  let yoe : Nat := (yy - era * 400).toNat
  let mp : Nat := if 2 < m then m - 3 else m + 9
  let doy : Nat := (153 * mp + 2) / 5 + d - 1
  let doe : Nat := yoe * 365 + yoe / 4 - yoe / 100 + doy
  era * 146097 + (doe : Int) - 719468

/-- Civil date of a days-since-1970 count (Howard Hinnant's
`civil_from_days`). -/
def civilFromDays (z : Int) : Int × Nat × Nat :=
  let z' : Int := z + 719468
  let era : Int := Int.fdiv z' 146097
  let doe : Nat := (z' - era * 146097).toNat
  let yoe : Nat := (doe - doe / 1460 + doe / 36524 - doe / 146096) / 365
  let y : Int := (yoe : Int) + era * 400
  let doy : Nat := doe - (365 * yoe + yoe / 4 - yoe / 100)
  let mp : Nat := (5 * doy + 2) / 153
  let d : Nat := doy - (153 * mp + 2) / 5 + 1
  let m : Nat := if mp < 10 then mp + 3 else mp - 9
  (if m ≤ 2 then y + 1 else y, m, d)

/-- Seconds since the epoch of a parsed timestamp. -/
def epochSeconds (t : DT) : Int :=
  daysFromCivil (t.year : Int) t.month t.day * 86400
    + (t.hour : Int) * 3600 + (t.minute : Int) * 60 + (t.second : Int)

/-- Timestamp of an epoch-second count.  Python `datetime` only covers
years 1 through 9999; outside that range `timestamp + shift_delta`
raises `OverflowError`, modelled as `none`. -/
def dtOfSeconds (total : Int) : Option DT :=
  let days : Int := Int.fdiv total 86400
  let sod : Nat := (total - days * 86400).toNat
  let c := civilFromDays days
  if 1 ≤ c.1 ∧ c.1 ≤ 9999 then
    some ⟨c.1.toNat, c.2.1, c.2.2, sod / 3600, sod % 3600 / 60, sod % 60⟩
  else none

/-- Decimal digits, taking fuel to keep the recursion structural (and
so kernel-computable); `fuel ≥ n` always suffices since `n / 10 < n`
for `n ≥ 10`. -/
def natDigitsGo : Nat → Nat → List Char
  | 0, n => [Nat.digitChar n]
  | fuel + 1, n =>
    if n < 10 then [Nat.digitChar n]
    else natDigitsGo fuel (n / 10) ++ [Nat.digitChar (n % 10)]

/-- Decimal digits of a natural number, most significant first. -/
def natDigits (n : Nat) : List Char := natDigitsGo n n

/-- A number zero-padded to a given width. -/
def padNum (w n : Nat) : List Char :=
  let ds := natDigits n
  List.replicate (w - ds.length) '0' ++ ds

/-- Rendering of a timestamp by
`timestamp.strftime('%Y-%m-%dT%H:%M:%SZ')` (src/gpxshift.py line 42);
`%Y` is modelled as the four-digit zero-padded year, which is what the
format produces throughout the year range 1000-9999 reachable here. -/
def renderTs (t : DT) : List Char :=
  padNum 4 t.year ++ ['-'] ++ padNum 2 t.month ++ ['-'] ++ padNum 2 t.day
    ++ ['T'] ++ padNum 2 t.hour ++ [':'] ++ padNum 2 t.minute
    ++ [':'] ++ padNum 2 t.second ++ ['Z']

/-- The `_replace` callback of `shift_gpx_times` (src/gpxshift.py lines
38-42) applied to the matched timestamp text: parse strictly, add the
shift (in seconds), render back.  A `ValueError` from `strptime` or an
`OverflowError` from the datetime addition is an `Except.error`. -/
def shiftTimestamp (delta : Int) (ts : List Char) : Except String (List Char) :=
  match parseTs ts with
  | none => .error "time data does not match format"
  | some t =>
    match dtOfSeconds (epochSeconds t + delta) with
    | none => .error "date value out of range"
    | some t' => .ok (renderTs t')

/-! ## The regex substitution pass -/

/-- Attempt to match `GPX_TIME_PATTERN` at the start of the text:
the literal `<time>`, 20 timestamp-shaped characters, the literal
`</time>`.  On success returns the matched timestamp characters and the
text remaining after the whole 33-character match. -/
def matchAt (l : List Char) : Option (List Char × List Char) :=
  if l.take 6 = timeOpenTag ∧ tsShape ((l.drop 6).take 20) = true
      ∧ (l.drop 26).take 7 = timeCloseTag then
    some ((l.drop 6).take 20, l.drop 33)
  else none

/-- The `GPX_TIME_PATTERN.sub(_replace, gpx_text)` pass (src/gpxshift.py
line 44): scan left to right; at each position either the pattern
matches — then the replacement (or the exception the callback raises)
is produced and scanning resumes after the match — or the character is
copied verbatim. -/
def subShiftGo (delta : Int) : Nat → List Char → Except String (List Char)
  | 0, l => .ok l
  | fuel + 1, l =>
    match matchAt l with
    | some (ts, _rem) =>
      match shiftTimestamp delta ts with
      | .error e => .error e
      | .ok ts2 =>
        match subShiftGo delta fuel (l.drop 33) with
        | .error e => .error e
        | .ok out => .ok (timeOpenTag ++ ts2 ++ timeCloseTag ++ out)
    | none =>
      match l with
      | [] => .ok []
      | c :: rest =>
        match subShiftGo delta fuel rest with
        | .error e => .error e
        | .ok out => .ok (c :: out)

/-- The scan itself: every step consumes at least one character, so a
fuel of the text's length always suffices (the fuel keeps the recursion
structural and hence kernel-computable; fuel exhaustion is unreachable,
see `subShiftGo_fuel`). -/
def subShift (delta : Int) (l : List Char) : Except String (List Char) :=
  subShiftGo delta l.length l

/-- `shift_gpx_times(gpx_text, shift_delta)` (src/gpxshift.py lines
34-44): a zero shift returns the text unchanged, otherwise the
substitution pass runs over the text. -/
def shift_gpx_times (gpx_text : List Char) (shift_delta : Int) :
    Except String (List Char) :=
  if shift_delta = 0 then .ok gpx_text
  else subShift shift_delta gpx_text

/-! ## Segment decomposition of a document -/

/-- One piece of a document as the substitution pass sees it: either a
single unmatched character, copied verbatim, or a full
`<time>…</time>` match carrying its 20 timestamp characters. -/
inductive Seg where
  | lit : Char → Seg
  | tsElem : List Char → Seg

/-- The source text of a segment. -/
def renderSeg : Seg → List Char
  | .lit c => [c]
  | .tsElem ts => timeOpenTag ++ (ts ++ timeCloseTag)

/-- The source text of a segment list. -/
def renderSegs : List Seg → List Char
  | [] => []
  | s :: r => renderSeg s ++ renderSegs r

/-- The output text of one segment under a shift: literal characters
are untouched, matched timestamps are shifted in place between the
unchanged tags. -/
def shiftSeg (delta : Int) : Seg → Except String (List Char)
  | .lit c => .ok [c]
  | .tsElem ts =>
    match shiftTimestamp delta ts with
    | .error e => .error e
    | .ok ts2 => .ok (timeOpenTag ++ (ts2 ++ timeCloseTag))

/-- The output text of a segment list under a shift. -/
def shiftSegs (delta : Int) : List Seg → Except String (List Char)
  | [] => .ok []
  | s :: r =>
    match shiftSeg delta s with
    | .error e => .error e
    | .ok x =>
      match shiftSegs delta r with
      | .error e => .error e
      | .ok y => .ok (x ++ y)

/-- A well-formed segment list only carries timestamp segments whose
text matches the strict pattern. -/
def segWF : Seg → Prop
  | .lit _ => True
  | .tsElem ts => tsShape ts = true

/-- The segmentation the scan induces on a text. -/
def scanSegsGo : Nat → List Char → List Seg
  | 0, _ => []
  | fuel + 1, l =>
    match matchAt l with
    | some (ts, _rem) => .tsElem ts :: scanSegsGo fuel (l.drop 33)
    | none =>
      match l with
      | [] => []
      | c :: rest => .lit c :: scanSegsGo fuel rest

/-- The segmentation of a text, with the same length fuel as the scan
(fuel exhaustion is again unreachable, see `scanSegsGo_fuel`). -/
def scanSegs (l : List Char) : List Seg :=
  scanSegsGo l.length l

/-! ## POSIX paths (`pathlib.PosixPath`) -/

/-- A `pathlib.PosixPath`: whether it is absolute, plus its normalized
components (empty and `.` components are dropped by `pathlib`). -/
structure SPath where
  absolute : Bool
  parts : List String
deriving DecidableEq

/-- Split a character list on `/`. -/
def splitSlash : List Char → List (List Char)
  | [] => [[]]
  | c :: rest =>
    let r := splitSlash rest
    if c = '/' then [] :: r
    else
      match r with
      | [] => [[c]]
      | p :: ps => (c :: p) :: ps

/-- `pathlib.PosixPath(s)`: absolute iff the string starts with `/`;
components are the slash-separated pieces with empty and `.` pieces
dropped. -/
def parsePath (s : String) : SPath :=
  { absolute := s.data.head? = some '/',
    parts := ((splitSlash s.data).filter
        (fun p => ¬ (p = [] ∨ p = ['.']))).map (fun p => String.mk p) }

/-- `Path.name`: the last component, or the empty string. -/
def SPath.name (p : SPath) : String := (p.parts.getLast?).getD ""

/-- `Path.parent`: drop the last component (the parent of `.` and of the
root is itself, which this also models). -/
def SPath.parent (p : SPath) : SPath :=
  { absolute := p.absolute, parts := p.parts.dropLast }

/-- `Path.is_absolute()`. -/
def SPath.is_absolute (p : SPath) : Bool := p.absolute

/-- The `/` operator on paths: an absolute right operand replaces the
left one, otherwise the components are appended. -/
def SPath.join (p q : SPath) : SPath :=
  if q.absolute then q
  else { absolute := p.absolute, parts := p.parts ++ q.parts }

/-- Index of the last `.` in a character list, if any. -/
def rfindDot : List Char → Option Nat
  | [] => none
  | c :: rest =>
    match rfindDot rest with
    | some i => some (i + 1)
    | none => if c = '.' then some 0 else none

/-- `Path.suffix`: the final component's last extension including its
dot — `name[i:]` for the last dot index `i` when `0 < i < len(name)-1`,
otherwise empty. -/
def pySuffix (p : SPath) : String :=
  let name := (SPath.name p).data
  match rfindDot name with
  | some i => if 0 < i ∧ i < name.length - 1 then String.mk (name.drop i) else ""
  | none => ""

/-- `Path.stem`: the final component without `pySuffix`. -/
def pyStem (p : SPath) : String :=
  let name := (SPath.name p).data
  match rfindDot name with
  | some i => if 0 < i ∧ i < name.length - 1 then String.mk (name.take i) else String.mk name
  | none => String.mk name

/-- `Path.with_name(n)`: replace the last component; `pathlib` raises
`ValueError` when the path has no name (modelled as `none`). -/
def withName (p : SPath) (n : String) : Option SPath :=
  if p.parts = [] then none
  else some { absolute := p.absolute, parts := p.parts.dropLast ++ [n] }

/-! ## `os.path.expanduser` -/

/-- The process environment the save path resolution reads: the `HOME`
variable, the `pwd` database (for `~user` forms), and the current
working directory. -/
structure Env where
  home : String
  userLookup : String → Option String
  cwd : SPath

/-- Index of the first `/`, or the list's length when there is none. -/
def idxOfSlash : List Char → Nat
  | [] => 0
  | c :: rest => if c = '/' then 0 else 1 + idxOfSlash rest

/-- Strip trailing `/` characters. -/
def rstripSlash (cs : List Char) : List Char :=
  (cs.reverse.dropWhile (fun c => c = '/')).reverse

/-- `os.path.expanduser(path)` (posixpath): a leading `~` (up to the
first `/`) is replaced by the home directory — `HOME` for bare `~`, the
`pwd` entry for `~user` (unknown users leave the path unchanged); the
home directory is stripped of trailing slashes, and an empty result
becomes `/`. -/
def expanduser (env : Env) (path : String) : String :=
  match hp : path.data with
  | '~' :: rest =>
    let i := 1 + idxOfSlash rest
    let userhome : Option String :=
      if i = 1 then some env.home
      else env.userLookup (String.mk ((path.data.take i).drop 1))
    match userhome with
    | none => path
    | some uh =>
      let res := rstripSlash uh.data ++ path.data.drop i
      if res = [] then "/" else String.mk res
  | _ => path

/-! ## The structural GPX documents (gpxpy objects) -/

/-- A track, route or segment point as `_apply_shift` copies it:
coordinates and optional elevation verbatim, optional timestamp in
epoch seconds. -/
structure GPXPoint where
  latitude : Float
  longitude : Float
  elevation : Option Float
  time : Option Int

structure GPXSegment where
  points : List GPXPoint

structure GPXTrack where
  name : Option String
  segments : List GPXSegment

structure GPXWaypoint where
  latitude : Float
  longitude : Float
  elevation : Option Float
  time : Option Int
  name : Option String

structure GPXRoute where
  name : Option String
  points : List GPXPoint

/-- The parsed GPX document, restricted to the fields the program
touches. -/
structure GPXDoc where
  creator : Option String
  version : Option String
  tracks : List GPXTrack
  waypoints : List GPXWaypoint
  routes : List GPXRoute

/-! ## The session (`GPXShiftApp`) -/

/-- The session object of src/gpxshift.py lines 47-57.  `time_shift`
is the cumulative `datetime.timedelta` in seconds; the datetimes the
structural documents carry are epoch seconds. -/
structure GPXShiftApp where
  gpx_file_path : String
  original_gpx_path : SPath
  original_gpx_text : List Char
  original_gpx : GPXDoc
  current_gpx : GPXDoc
  time_shift : Int
  display_utc : Bool

/-- `GPXShiftApp.__init__` (src/gpxshift.py lines 48-57): the raw text
read from the file and its structural parse (the external `gpxpy.parse`
collaborator, deterministic, so both parse calls yield `parsed`) seed
the session; the shift starts at zero and display starts local. -/
def GPXShiftApp.init (gpx_file_path : String) (gpx_text : List Char)
    (parsed : GPXDoc) : GPXShiftApp :=
  { gpx_file_path := gpx_file_path,
    original_gpx_path := parsePath gpx_file_path,
    original_gpx_text := gpx_text,
    original_gpx := parsed,
    current_gpx := parsed,
    time_shift := 0,
    display_utc := false }

/-- Shift one point of the structural copy (`_apply_shift` body). -/
def applyShiftPoint (shift_delta : Int) (p : GPXPoint) : GPXPoint :=
  { latitude := p.latitude, longitude := p.longitude,
    elevation := p.elevation,
    time := match p.time with
            | some t => some (t + shift_delta)
            | none => none }

/-- `GPXShiftApp._apply_shift` (src/gpxshift.py lines 86-130): rebuild
the document, offsetting every timestamp by the shift and copying every
other modelled field verbatim. -/
def applyShiftDoc (gpx_data : GPXDoc) (shift_delta : Int) : GPXDoc :=
  { creator := gpx_data.creator,
    version := gpx_data.version,
    tracks := gpx_data.tracks.map (fun track =>
      { name := track.name,
        segments := track.segments.map (fun seg =>
          { points := seg.points.map (applyShiftPoint shift_delta) }) }),
    waypoints := gpx_data.waypoints.map (fun w =>
      { latitude := w.latitude, longitude := w.longitude,
        elevation := w.elevation,
        time := match w.time with
                | some t => some (t + shift_delta)
                | none => none,
        name := w.name }),
    routes := gpx_data.routes.map (fun route =>
      { name := route.name,
        points := route.points.map (applyShiftPoint shift_delta) }) }

/-- `GPXShiftApp.shift_time(hours)` (src/gpxshift.py lines 68-70):
add `timedelta(hours=hours)` to the cumulative shift, then recompute
the current structural projection from the original parse. -/
def shift_time (app : GPXShiftApp) (hours : Int) : GPXShiftApp :=
  let ts := app.time_shift + hours * 3600
  { app with
      time_shift := ts,
      current_gpx := applyShiftDoc app.original_gpx ts }

/-- `GPXShiftApp.toggle_display_mode` (src/gpxshift.py lines 72-73). -/
def toggle_display_mode (app : GPXShiftApp) : GPXShiftApp :=
  { app with display_utc := !app.display_utc }

/-- `GPXShiftApp.get_shift_hours` (src/gpxshift.py lines 75-76):
`int(self.time_shift.total_seconds() // 3600)` — floor division. -/
def get_shift_hours (app : GPXShiftApp) : Int :=
  Int.fdiv app.time_shift 3600

/-- `GPXShiftApp.get_default_output_path` (src/gpxshift.py lines
78-84): `{stem}_{p or m}{abs(hours)}{extension}` next to the source
file; `with_name` raises (modelled `none`) only when the source path
has no final component, which a session on a readable file never has. -/
def get_default_output_path (app : GPXShiftApp) : Option SPath :=
  let hours := get_shift_hours app
  let sign := if 0 ≤ hours then "p" else "m"
  let suffix := "_" ++ sign ++ String.mk (natDigits hours.natAbs)
  let stem := pyStem app.original_gpx_path
  let extension := pySuffix app.original_gpx_path
  withName app.original_gpx_path (stem ++ suffix ++ extension)

/-- The output-path resolution of `GPXShiftApp.save_gpx`
(src/gpxshift.py lines 133-142): a non-empty override is
tilde-expanded and parsed; if absolute it is used as is, if it has no
directory part (the `parent == Path(".")` check) the bare name goes
next to the source file, otherwise it is
joined to the current working directory; without an override the
default output path is used. -/
def resolve_output_path (app : GPXShiftApp) (output_file_path : Option String)
    (env : Env) : Except String SPath :=
  let viaDefault : Except String SPath :=
    match get_default_output_path app with
    | some p => .ok p
    | none => .error "ValueError: empty name"
  match output_file_path with
  | none => viaDefault
  | some s =>
    if s = "" then viaDefault
    else
      let candidate_path := parsePath (expanduser env s)
      if candidate_path.is_absolute then .ok candidate_path
      else if SPath.parent candidate_path = parsePath "." then
        .ok (SPath.join (SPath.parent app.original_gpx_path)
          (parsePath (SPath.name candidate_path)))
      else .ok (SPath.join env.cwd candidate_path)

/-- `GPXShiftApp.save_gpx(output_file_path)` (src/gpxshift.py lines
132-145): resolve the destination, rewrite the *original raw text*
through `shift_gpx_times` with the cumulative shift, write, and return
the resolved path.  The write is the external filesystem, modelled by
the `write` oracle; the written bytes are returned alongside the path
to make the write observable.  The first component of the result is the
session state after the call (the method assigns to no field). -/
def save_gpx (app : GPXShiftApp) (output_file_path : Option String)
    (env : Env) (write : SPath → List Char → Except String Unit) :
    GPXShiftApp × Except String (SPath × List Char) :=
  match resolve_output_path app output_file_path env with
  | .error e => (app, .error e)
  | .ok output_path =>
    match shift_gpx_times app.original_gpx_text app.time_shift with
    | .error e => (app, .error e)
    | .ok shifted_text =>
      match write output_path shifted_text with
      | .error e => (app, .error e)
      | .ok _ => (app, .ok (output_path, shifted_text))

/-! ## Lemmas: basic facts about matching -/

theorem matchAt_some (l ts rem : List Char) (h : matchAt l = some (ts, rem)) :
    l.take 6 = timeOpenTag ∧ tsShape ((l.drop 6).take 20) = true
      ∧ (l.drop 26).take 7 = timeCloseTag
      ∧ ts = (l.drop 6).take 20 ∧ rem = l.drop 33 := by
  unfold matchAt at h
  split at h
  · rename_i hc
    injection h with h'
    injection h' with h1 h2
    exact ⟨hc.1, hc.2.1, hc.2.2, h1.symm, h2.symm⟩
  · exact absurd h (by simp)

theorem matchAt_some_length (l ts rem : List Char)
    (h : matchAt l = some (ts, rem)) : 33 ≤ l.length := by
  obtain ⟨-, -, hclose, -, -⟩ := matchAt_some l ts rem h
  have h7 : ((l.drop 26).take 7).length = 7 := by rw [hclose]; rfl
  simp only [List.length_take, List.length_drop] at h7
  omega

/-! ## Specification-side definitions used to state the claims -/

/-- The default output path exactly as the specification words it (and
as claim C7 states it): the source file's directory joined with
`stem ++ tag ++ extension`, where the tag is `_p{N}` when the
floor-divided hour count is nonnegative and `_m{N}` otherwise, `N`
being the absolute hour count. -/
def defaultOutputPathSpec (app : GPXShiftApp) : SPath :=
  let hours : Int := Int.fdiv app.time_shift 3600
  let tag : String :=
    (if 0 ≤ hours then "_p" else "_m") ++ String.mk (natDigits hours.natAbs)
  SPath.join (SPath.parent app.original_gpx_path)
    { absolute := false,
      parts := [pyStem app.original_gpx_path ++ tag
        ++ pySuffix app.original_gpx_path] }

/-- The override resolution policy as the amended claim C8 words it:
the override string is first tilde-expanded; if the expanded path is
absolute it is used verbatim; else if it has no directory component the
bare name is placed in the source file's directory; else it is resolved
against the current working directory. -/
def resolveOverrideSpec (app : GPXShiftApp) (override : String)
    (env : Env) : SPath :=
  let expanded := parsePath (expanduser env override)
  if expanded.absolute then expanded
  else if expanded.parts.length ≤ 1 then
    SPath.join (SPath.parent app.original_gpx_path)
      (parsePath (SPath.name expanded))
  else SPath.join env.cwd expanded

/-! ## Concrete sample data for the witness instances -/

def sampleDoc : GPXDoc :=
  { creator := some "pytest", version := some "1.1",
    tracks := [], waypoints := [], routes := [] }

def sampleText : List Char :=
  "<gpx><trkpt lat=\"0\" lon=\"0\"><time>2025-01-01T00:00:00Z</time></trkpt></gpx>".data

def sampleShiftedText : List Char :=
  "<gpx><trkpt lat=\"0\" lon=\"0\"><time>2025-01-01T03:00:00Z</time></trkpt></gpx>".data

def morningApp : GPXShiftApp :=
  shift_time (GPXShiftApp.init "/tmp/morning_run.gpx" sampleText sampleDoc) 3

def eveningApp : GPXShiftApp :=
  shift_time (GPXShiftApp.init "/tmp/evening_run.gpx" sampleText sampleDoc) (-2)

def tildeApp : GPXShiftApp :=
  GPXShiftApp.init "/data/run.gpx" sampleText sampleDoc

def envHome : Env :=
  { home := "/home/user", userLookup := fun _ => none, cwd := parsePath "/cwd" }

/-- A filesystem oracle on which every write succeeds. -/
def writeOk : SPath → List Char → Except String Unit := fun _ _ => .ok ()

def morningOutPath : SPath :=
  { absolute := true, parts := ["tmp", "morning_run_p3.gpx"] }

def c2Text : List Char := "a<time>2025-01-01T00:00:00Z</time>b".data

def c2Out : List Char := "a<time>2025-01-01T01:00:00Z</time>b".data

/-- A timestamp that matches the element-level pattern but fails strict
parsing: month 13. -/
def c6BadTs : List Char := "2025-13-01T00:00:00Z".data

/-- A time element inner text with fractional seconds: well formed XML
but not the exact second-precision pattern. -/
def c10Inner : List Char := "2025-01-01T00:00:00.500Z".data

/-! ## Lemmas about the timestamp shape and pattern matching -/

theorem tsShape_length {cs : List Char} (h : tsShape cs = true) :
    cs.length = 20 := by
  unfold tsShape at h
  exact of_decide_eq_true (Bool.and_elim_left h)

theorem tsPunct_cases (i : Nat) :
    tsPunct i = none ∨ tsPunct i = some '-' ∨ tsPunct i = some 'T'
      ∨ tsPunct i = some ':' ∨ tsPunct i = some 'Z' := by
  unfold tsPunct
  split
  · tauto
  · split
    · tauto
    · split
      · tauto
      · split <;> tauto

/-- Every character of a shaped timestamp is a digit or one of the four
fixed punctuation marks; in particular none of them is `<` or `t`. -/
theorem tsShape_allowed {cs : List Char} (h : tsShape cs = true)
    {i : Nat} (hi : i < 20) {c : Char} (hc : cs[i]? = some c) :
    c.isDigit = true ∨ c = '-' ∨ c = 'T' ∨ c = ':' ∨ c = 'Z' := by
  unfold tsShape at h
  have h2 := Bool.and_elim_right h
  rw [List.all_eq_true] at h2
  have h3 := h2 i (List.mem_range.mpr hi)
  rw [hc] at h3
  rcases tsPunct_cases i with hp | hp | hp | hp | hp <;> rw [hp] at h3 <;>
    simp only at h3
  · exact Or.inl h3
  · exact Or.inr (Or.inl (of_decide_eq_true h3))
  · exact Or.inr (Or.inr (Or.inl (of_decide_eq_true h3)))
  · exact Or.inr (Or.inr (Or.inr (Or.inl (of_decide_eq_true h3))))
  · exact Or.inr (Or.inr (Or.inr (Or.inr (of_decide_eq_true h3))))

/-- The open-tag characters of a match, read off the whole text. -/
theorem matchAt_open_char {l ts rem : List Char}
    (h : matchAt l = some (ts, rem)) {j : Nat} (hj : j < 6) :
    l[j]? = timeOpenTag[j]? := by
  obtain ⟨h1, -, -, -, -⟩ := matchAt_some l ts rem h
  rw [← List.getElem?_take_of_lt hj, h1]

/-- The timestamp characters of a match are shape-constrained. -/
theorem matchAt_ts_char {l ts rem : List Char}
    (h : matchAt l = some (ts, rem)) {j : Nat} {c : Char}
    (hc : l[j]? = some c) (h6 : 6 ≤ j) (hj : j < 26) :
    c.isDigit = true ∨ c = '-' ∨ c = 'T' ∨ c = ':' ∨ c = 'Z' := by
  obtain ⟨-, h2, -, -, -⟩ := matchAt_some l ts rem h
  refine tsShape_allowed h2 (i := j - 6) (by omega) ?_
  rw [List.getElem?_take_of_lt (by omega), List.getElem?_drop]
  have : 6 + (j - 6) = j := by omega
  rw [this]
  exact hc

/-- The close-tag characters of a match, read off the whole text. -/
theorem matchAt_close_char {l ts rem : List Char}
    (h : matchAt l = some (ts, rem)) {j : Nat} (h26 : 26 ≤ j) (hj : j < 33) :
    l[j]? = timeCloseTag[j - 26]? := by
  obtain ⟨-, -, h3, -, -⟩ := matchAt_some l ts rem h
  have hx : ((l.drop 26).take 7)[j - 26]? = timeCloseTag[j - 26]? := by
    rw [h3]
  rw [List.getElem?_take_of_lt (by omega), List.getElem?_drop] at hx
  have hj' : 26 + (j - 26) = j := by omega
  rw [hj'] at hx
  exact hx

/-- No occurrence of the pattern can begin strictly inside the
33-character span of a match: positions 1-32 of the span never hold the
two characters `<`, `t` that every match starts with. -/
theorem matchAt_no_open_inside {l ts rem : List Char}
    (h : matchAt l = some (ts, rem)) {o : Nat} (h1 : 1 ≤ o) (h2 : o ≤ 32)
    (hlt : l[o]? = some '<') (hlt2 : l[o + 1]? = some 't') : False := by
  interval_cases o <;>
    first
    | (refine absurd (hlt.symm.trans (matchAt_open_char h ?_)) ?_ <;>
        decide)
    | (refine absurd (hlt2.symm.trans (matchAt_close_char h ?_ ?_)) ?_ <;>
        decide)
    | (refine absurd (hlt.symm.trans (matchAt_close_char h ?_ ?_)) ?_ <;>
        decide)
    | (rcases matchAt_ts_char h hlt (by norm_num) (by norm_num)
        with hx | hx | hx | hx | hx <;> exact absurd hx (by decide))

/-! ## Unfolding equations of the substitution pass -/

theorem subShiftGo_nil_any (delta : Int) (fuel : Nat) :
    subShiftGo delta fuel [] = .ok [] := by
  cases fuel <;> rfl

/-- Any fuel at least the text's length gives the same scan result:
fuel exhaustion is unreachable. -/
theorem subShiftGo_fuel (delta : Int) (f1 : Nat) :
    ∀ f2 l, l.length ≤ f1 → l.length ≤ f2 →
      subShiftGo delta f1 l = subShiftGo delta f2 l := by
  induction f1 with
  | zero =>
    intro f2 l h1 h2
    have hl : l = [] := List.eq_nil_of_length_eq_zero (by omega)
    subst hl
    rw [subShiftGo_nil_any, subShiftGo_nil_any]
  | succ g ih =>
    intro f2 l h1 h2
    cases f2 with
    | zero =>
      have hl : l = [] := List.eq_nil_of_length_eq_zero (by omega)
      subst hl
      rw [subShiftGo_nil_any, subShiftGo_nil_any]
    | succ k =>
      cases hm : matchAt l with
      | some p =>
        obtain ⟨ts, rem⟩ := p
        have h33 : 33 ≤ l.length := matchAt_some_length l ts rem hm
        have hrec := ih k (l.drop 33)
          (by simp only [List.length_drop]; omega)
          (by simp only [List.length_drop]; omega)
        simp only [subShiftGo, hm, hrec]
      | none =>
        cases l with
        | nil => rw [subShiftGo_nil_any, subShiftGo_nil_any]
        | cons c rest =>
          have hrec := ih k rest
            (by simp only [List.length_cons] at h1; omega)
            (by simp only [List.length_cons] at h2; omega)
          simp only [subShiftGo, hm, hrec]

theorem subShift_nil (delta : Int) : subShift delta [] = .ok [] := rfl

theorem subShift_of_match {delta : Int} {l ts rem : List Char}
    (h : matchAt l = some (ts, rem)) :
    subShift delta l =
      match shiftTimestamp delta ts with
      | .error e => .error e
      | .ok ts2 =>
        match subShift delta (l.drop 33) with
        | .error e => .error e
        | .ok out => .ok (timeOpenTag ++ ts2 ++ timeCloseTag ++ out) := by
  have h33 : 33 ≤ l.length := matchAt_some_length l ts rem h
  obtain ⟨n, hn⟩ : ∃ n, l.length = n + 1 := ⟨l.length - 1, by omega⟩
  have hfuel : subShiftGo delta n (l.drop 33)
      = subShiftGo delta (l.drop 33).length (l.drop 33) :=
    subShiftGo_fuel delta n (l.drop 33).length (l.drop 33)
      (by simp only [List.length_drop]; omega) (le_refl _)
  unfold subShift
  rw [hn]
  simp only [subShiftGo, h, hfuel]

theorem subShift_of_nomatch {delta : Int} {c : Char} {rest : List Char}
    (h : matchAt (c :: rest) = none) :
    subShift delta (c :: rest) =
      match subShift delta rest with
      | .error e => .error e
      | .ok out => .ok (c :: out) := by
  unfold subShift
  simp only [List.length_cons, subShiftGo, h]

theorem scanSegsGo_nil_any (fuel : Nat) : scanSegsGo fuel [] = [] := by
  cases fuel <;> rfl

/-- Any fuel at least the text's length gives the same segmentation. -/
theorem scanSegsGo_fuel (f1 : Nat) :
    ∀ f2 l, l.length ≤ f1 → l.length ≤ f2 →
      scanSegsGo f1 l = scanSegsGo f2 l := by
  induction f1 with
  | zero =>
    intro f2 l h1 h2
    have hl : l = [] := List.eq_nil_of_length_eq_zero (by omega)
    subst hl
    rw [scanSegsGo_nil_any, scanSegsGo_nil_any]
  | succ g ih =>
    intro f2 l h1 h2
    cases f2 with
    | zero =>
      have hl : l = [] := List.eq_nil_of_length_eq_zero (by omega)
      subst hl
      rw [scanSegsGo_nil_any, scanSegsGo_nil_any]
    | succ k =>
      cases hm : matchAt l with
      | some p =>
        obtain ⟨ts, rem⟩ := p
        have h33 : 33 ≤ l.length := matchAt_some_length l ts rem hm
        have hrec := ih k (l.drop 33)
          (by simp only [List.length_drop]; omega)
          (by simp only [List.length_drop]; omega)
        simp only [scanSegsGo, hm, hrec]
      | none =>
        cases l with
        | nil => rw [scanSegsGo_nil_any, scanSegsGo_nil_any]
        | cons c rest =>
          have hrec := ih k rest
            (by simp only [List.length_cons] at h1; omega)
            (by simp only [List.length_cons] at h2; omega)
          simp only [scanSegsGo, hm, hrec]

/-! ## How matching interacts with concatenation -/

/-- Matching only inspects the first 33 characters, so appending text
on the right changes only the returned remainder. -/
theorem matchAt_append_eq (a b : List Char) (hlen : 33 ≤ a.length) :
    matchAt (a ++ b) = (matchAt a).map (fun p => (p.1, p.2 ++ b)) := by
  have e1 : (a ++ b).take 6 = a.take 6 :=
    List.take_append_of_le_length (by omega)
  have e2 : ((a ++ b).drop 6).take 20 = (a.drop 6).take 20 := by
    rw [List.drop_append_of_le_length (by omega),
      List.take_append_of_le_length (by rw [List.length_drop]; omega)]
  have e3 : ((a ++ b).drop 26).take 7 = (a.drop 26).take 7 := by
    rw [List.drop_append_of_le_length (by omega),
      List.take_append_of_le_length (by rw [List.length_drop]; omega)]
  have e4 : (a ++ b).drop 33 = a.drop 33 ++ b :=
    List.drop_append_of_le_length (by omega)
  unfold matchAt
  rw [e1, e2, e3, e4]
  split
  · rfl
  · rfl

theorem matchAt_append_of_some {a : List Char} (b : List Char)
    {ts rem : List Char} (h : matchAt a = some (ts, rem)) :
    matchAt (a ++ b) = some (ts, a.drop 33 ++ b) := by
  obtain ⟨-, -, -, -, h5⟩ := matchAt_some a ts rem h
  rw [matchAt_append_eq a b (matchAt_some_length a ts rem h), h, h5]
  rfl

theorem matchAt_none_of_append_none {a b : List Char}
    (h : matchAt (a ++ b) = none) : matchAt a = none := by
  cases ha : matchAt a with
  | none => rfl
  | some p =>
    rw [matchAt_append_of_some b
      (show matchAt a = some (p.1, p.2) from by rw [ha])] at h
    exact absurd h (by simp)

theorem matchAt_some_of_append_some {a b ts rem : List Char}
    (hlen : 33 ≤ a.length) (h : matchAt (a ++ b) = some (ts, rem)) :
    matchAt a = some (ts, a.drop 33) ∧ rem = a.drop 33 ++ b := by
  rw [matchAt_append_eq a b hlen] at h
  cases ha : matchAt a with
  | none => rw [ha] at h; exact absurd h (by simp)
  | some p =>
    rw [ha] at h
    simp only [Option.map_some'] at h
    injection h with h'
    injection h' with h1 h2
    obtain ⟨-, -, -, -, h5⟩ := matchAt_some a p.1 p.2 ha
    subst h1
    refine ⟨?_, by rw [← h2, h5]⟩
    rw [← h5]

/-- The pattern matches at the front of `open ++ ts ++ close ++ suf`
whenever `ts` is timestamp-shaped, capturing exactly `ts`. -/
theorem matchAt_region (ts suf : List Char) (hts : tsShape ts = true) :
    matchAt (timeOpenTag ++ (ts ++ (timeCloseTag ++ suf))) = some (ts, suf) := by
  have h20 := tsShape_length hts
  have e1 : (timeOpenTag ++ (ts ++ (timeCloseTag ++ suf))).take 6 = timeOpenTag :=
    List.take_left' rfl
  have ed6 : (timeOpenTag ++ (ts ++ (timeCloseTag ++ suf))).drop 6
      = ts ++ (timeCloseTag ++ suf) := List.drop_left' rfl
  have e2 : ((timeOpenTag ++ (ts ++ (timeCloseTag ++ suf))).drop 6).take 20 = ts := by
    rw [ed6]; exact List.take_left' h20
  have e3 : ((timeOpenTag ++ (ts ++ (timeCloseTag ++ suf))).drop 26).take 7
      = timeCloseTag := by
    rw [show (26 : Nat) = 6 + 20 from rfl, ← List.drop_drop, ed6,
      List.drop_left' h20]
    exact List.take_left' rfl
  have e4 : (timeOpenTag ++ (ts ++ (timeCloseTag ++ suf))).drop 33 = suf := by
    rw [show (33 : Nat) = 6 + 27 from rfl, ← List.drop_drop, ed6,
      show (27 : Nat) = 20 + 7 from rfl, ← List.drop_drop,
      List.drop_left' h20]
    exact List.drop_left' rfl
  unfold matchAt
  rw [e1, e2, e3, e4, if_pos ⟨rfl, hts, rfl⟩]

/-! ## Factoring the scan at cut points -/

/-- When no match that starts inside `a` extends past the end of `a`,
the scan of `a ++ b` is the scan of `a` followed by the scan of `b`. -/
theorem subShift_append (delta : Int) (a b : List Char)
    (hcut : ∀ k ts rem, k < a.length →
      matchAt ((a ++ b).drop k) = some (ts, rem) → k + 33 ≤ a.length) :
    subShift delta (a ++ b) =
      match subShift delta a with
      | .error e => .error e
      | .ok x =>
        match subShift delta b with
        | .error e => .error e
        | .ok y => .ok (x ++ y) := by
  match a with
  | [] =>
    rw [List.nil_append, subShift_nil]
    cases subShift delta b <;> simp
  | c :: a1 =>
    cases hm : matchAt ((c :: a1) ++ b) with
    | some p =>
      obtain ⟨ts, rem⟩ := p
      have h33 : 33 ≤ (c :: a1).length := by
        have h0 := hcut 0 ts rem (by simp) (by rw [List.drop_zero, hm])
        omega
      obtain ⟨hma, -⟩ := matchAt_some_of_append_some h33 hm
      rw [subShift_of_match hm, subShift_of_match hma]
      have hdrop : ((c :: a1) ++ b).drop 33 = (c :: a1).drop 33 ++ b :=
        List.drop_append_of_le_length h33
      rw [hdrop]
      have hrec := subShift_append delta ((c :: a1).drop 33) b
        (fun k ts' rem' hk hm' => by
          have he : ((c :: a1).drop 33 ++ b).drop k
              = ((c :: a1) ++ b).drop (33 + k) := by
            rw [← List.drop_append_of_le_length h33, List.drop_drop]
          rw [he] at hm'
          have h2 := hcut (33 + k) ts' rem'
            (by simp only [List.length_drop, List.length_cons] at hk ⊢; omega)
            hm'
          simp only [List.length_drop, List.length_cons] at hk h2 ⊢
          omega)
      rw [hrec]
      cases shiftTimestamp delta ts <;>
        [simp; cases subShift delta ((c :: a1).drop 33) <;>
          [simp; cases subShift delta b <;> simp [List.append_assoc]]]
    | none =>
      have hma : matchAt (c :: a1) = none := matchAt_none_of_append_none hm
      rw [List.cons_append] at hm
      rw [List.cons_append, subShift_of_nomatch hm, subShift_of_nomatch hma]
      have hrec := subShift_append delta a1 b
        (fun k ts' rem' hk hm2 => by
          have he : (a1 ++ b).drop k = ((c :: a1) ++ b).drop (k + 1) := by
            rw [List.cons_append]
            rfl
          rw [he] at hm2
          have h2 := hcut (k + 1) ts' rem'
            (by simp only [List.length_cons]; omega) hm2
          simp only [List.length_cons] at h2 ⊢
          omega)
      rw [hrec]
      cases subShift delta a1 <;> [simp; cases subShift delta b <;> simp]
termination_by a.length
decreasing_by
  all_goals simp only [List.length_drop, List.length_cons]
  all_goals omega

/-- A block of text at which no match starts is copied verbatim and
raises nothing: the scan passes straight through to the rest. -/
theorem subShift_prepend_lit (delta : Int) (r b : List Char)
    (h : ∀ k, k < r.length → matchAt ((r ++ b).drop k) = none) :
    subShift delta (r ++ b) =
      match subShift delta b with
      | .error e => .error e
      | .ok y => .ok (r ++ y) := by
  induction r with
  | nil =>
    rw [List.nil_append]
    cases subShift delta b <;> simp
  | cons c r1 ih =>
    have h0 : matchAt (c :: (r1 ++ b)) = none := by
      have := h 0 (by simp)
      rwa [List.drop_zero, List.cons_append] at this
    rw [List.cons_append, subShift_of_nomatch h0,
      ih (fun k hk => by
        have he : (r1 ++ b).drop k = ((c :: r1) ++ b).drop (k + 1) := by
          rw [List.cons_append]
          rfl
        rw [he]
        exact h (k + 1) (by simp only [List.length_cons]; omega))]
    cases subShift delta b <;> simp

/-- When the scan succeeds, every position at which the pattern matches
carries a timestamp that parses: nothing the pattern matches is skipped
by the substitution. -/
theorem subShift_ok_valid (delta : Int) (l out : List Char)
    (h : subShift delta l = .ok out) (k : Nat) (ts rem : List Char)
    (hm : matchAt (l.drop k) = some (ts, rem)) : parseTs ts ≠ none := by
  cases hml : matchAt l with
  | some p =>
    obtain ⟨ts0, rem0⟩ := p
    rw [subShift_of_match hml] at h
    cases hst : shiftTimestamp delta ts0 with
    | error e => rw [hst] at h; exact absurd h (by simp)
    | ok ts2 =>
      rw [hst] at h
      cases hsub : subShift delta (l.drop 33) with
      | error e => rw [hsub] at h; exact absurd h (by simp)
      | ok out0 =>
        rcases Nat.eq_zero_or_pos k with hk0 | hk1
        · subst hk0
          rw [List.drop_zero, hml] at hm
          injection hm with hm'
          injection hm' with h1 h2
          subst h1
          intro hnone
          rw [shiftTimestamp, hnone] at hst
          exact absurd hst (by simp)
        · rcases Nat.lt_or_ge k 33 with hk33 | hk33
          · exfalso
            refine matchAt_no_open_inside hml (o := k) hk1 (by omega) ?_ ?_
            · have := matchAt_open_char hm (j := 0) (by norm_num)
              rwa [List.getElem?_drop, Nat.add_zero] at this
            · have := matchAt_open_char hm (j := 1) (by norm_num)
              rwa [List.getElem?_drop] at this
          · have h33 : 33 ≤ l.length := matchAt_some_length _ _ _ hml
            refine subShift_ok_valid delta (l.drop 33) out0 hsub (k - 33)
              ts rem ?_
            rw [List.drop_drop, show 33 + (k - 33) = k by omega]
            exact hm
  | none =>
    match l with
    | [] =>
      rw [List.drop_nil] at hm
      exact absurd (hm ▸ rfl : matchAt ([] : List Char) = some (ts, rem))
        (by unfold matchAt; simp [timeOpenTag])
    | c :: rest =>
      rw [subShift_of_nomatch hml] at h
      cases hsub : subShift delta rest with
      | error e => rw [hsub] at h; exact absurd h (by simp)
      | ok out0 =>
        match k with
        | 0 =>
          rw [List.drop_zero, hml] at hm
          exact absurd hm (by simp)
        | k' + 1 =>
          exact subShift_ok_valid delta rest out0 hsub k' ts rem hm
termination_by l.length
decreasing_by
  all_goals simp only [List.length_drop, List.length_cons]
  all_goals omega

/-- A matched text decomposes as open tag, timestamp, close tag, rest. -/
theorem matchAt_decomp {l ts rem : List Char}
    (h : matchAt l = some (ts, rem)) :
    l = timeOpenTag ++ (ts ++ (timeCloseTag ++ l.drop 33)) := by
  obtain ⟨h1, -, h3, h4, -⟩ := matchAt_some l ts rem h
  have ht33 : l.take 33 = l.take 6 ++ ((l.drop 6).take 20 ++ (l.drop 26).take 7) := by
    rw [show (33 : Nat) = 6 + 27 from rfl, List.take_add,
      show (27 : Nat) = 20 + 7 from rfl, List.take_add, List.drop_drop]
  conv_lhs => rw [← List.take_append_drop 33 l]
  rw [ht33, h1, h3, ← h4, List.append_assoc, List.append_assoc]

theorem scanSegs_nil : scanSegs [] = [] := rfl

theorem scanSegs_of_match {l ts rem : List Char}
    (h : matchAt l = some (ts, rem)) :
    scanSegs l = .tsElem ts :: scanSegs (l.drop 33) := by
  have h33 : 33 ≤ l.length := matchAt_some_length l ts rem h
  obtain ⟨n, hn⟩ : ∃ n, l.length = n + 1 := ⟨l.length - 1, by omega⟩
  have hfuel : scanSegsGo n (l.drop 33)
      = scanSegsGo (l.drop 33).length (l.drop 33) :=
    scanSegsGo_fuel n (l.drop 33).length (l.drop 33)
      (by simp only [List.length_drop]; omega) (le_refl _)
  unfold scanSegs
  rw [hn]
  simp only [scanSegsGo, h, hfuel]

theorem scanSegs_of_nomatch {c : Char} {rest : List Char}
    (h : matchAt (c :: rest) = none) :
    scanSegs (c :: rest) = .lit c :: scanSegs rest := by
  unfold scanSegs
  simp only [List.length_cons, scanSegsGo, h]

/-- The segmentation reconstructs the source text exactly. -/
theorem renderSegs_scanSegs (l : List Char) :
    renderSegs (scanSegs l) = l := by
  cases hml : matchAt l with
  | some p =>
    obtain ⟨ts, rem⟩ := p
    have h33 : 33 ≤ l.length := matchAt_some_length _ _ _ hml
    rw [scanSegs_of_match hml]
    show renderSeg (.tsElem ts) ++ renderSegs (scanSegs (l.drop 33)) = l
    rw [renderSegs_scanSegs (l.drop 33)]
    conv_rhs => rw [matchAt_decomp hml]
    simp [renderSeg, List.append_assoc]
  | none =>
    match l with
    | [] => rw [scanSegs_nil]; rfl
    | c :: rest =>
      rw [scanSegs_of_nomatch hml]
      show [c] ++ renderSegs (scanSegs rest) = c :: rest
      rw [renderSegs_scanSegs rest]
      rfl
termination_by l.length
decreasing_by
  all_goals simp only [List.length_drop, List.length_cons]
  all_goals omega

/-- The substitution pass is exactly the segment-wise shift of the
scan's segmentation. -/
theorem subShift_eq_shiftSegs (delta : Int) (l : List Char) :
    subShift delta l = shiftSegs delta (scanSegs l) := by
  cases hml : matchAt l with
  | some p =>
    obtain ⟨ts, rem⟩ := p
    have h33 : 33 ≤ l.length := matchAt_some_length _ _ _ hml
    rw [subShift_of_match hml, scanSegs_of_match hml]
    show _ = shiftSegs delta (.tsElem ts :: scanSegs (l.drop 33))
    have hrec := subShift_eq_shiftSegs delta (l.drop 33)
    rw [shiftSegs]
    cases hst : shiftTimestamp delta ts with
    | error e => rw [shiftSeg, hst]
    | ok ts2 =>
      rw [shiftSeg, hst, ← hrec]
      cases subShift delta (l.drop 33) <;> simp [List.append_assoc]
  | none =>
    match l with
    | [] => rw [subShift_nil, scanSegs_nil]; rfl
    | c :: rest =>
      rw [subShift_of_nomatch hml, scanSegs_of_nomatch hml]
      have hrec := subShift_eq_shiftSegs delta rest
      rw [shiftSegs, shiftSeg, ← hrec]
      cases subShift delta rest <;> simp
termination_by l.length
decreasing_by
  all_goals simp only [List.length_drop, List.length_cons]
  all_goals omega

/-! ## Time elements that do not match the pattern -/

/-- A `<time>` element whose inner text is not exactly the 20-character
timestamp pattern is not a match, whatever follows it (the inner text
holding no `<`, as element content does). -/
theorem matchAt_region_of_bad {inner : List Char} (suf : List Char)
    (hfree : inner.all (fun c => !(c == '<')) = true)
    (hbad : tsShape inner = false) :
    matchAt (timeOpenTag ++ (inner ++ (timeCloseTag ++ suf))) = none := by
  cases hm : matchAt (timeOpenTag ++ (inner ++ (timeCloseTag ++ suf))) with
  | none => rfl
  | some p =>
    exfalso
    obtain ⟨ts, rem⟩ := p
    obtain ⟨-, h2, -, h4, -⟩ := matchAt_some _ _ _ hm
    have hO : timeOpenTag.length = 6 := rfl
    have hd6 : (timeOpenTag ++ (inner ++ (timeCloseTag ++ suf))).drop 6
        = inner ++ (timeCloseTag ++ suf) := List.drop_left' hO
    rcases lt_trichotomy inner.length 20 with hlen | hlen | hlen
    · -- too short: the close tag's `<` falls inside the 20-character
      -- window, which the shape forbids
      have hts_at :
          ((((timeOpenTag ++ (inner ++ (timeCloseTag ++ suf))).drop 6).take
            20))[inner.length]? = some '<' := by
        rw [List.getElem?_take_of_lt hlen, hd6,
          List.getElem?_append_right (le_refl _), Nat.sub_self]
        rfl
      rcases tsShape_allowed h2 hlen hts_at with hx | hx | hx | hx | hx <;>
        exact absurd hx (by decide)
    · -- exactly 20 characters: then the window is `inner` itself and
      -- the shape check contradicts `hbad`
      have hts : ((timeOpenTag ++ (inner ++ (timeCloseTag ++ suf))).drop
          6).take 20 = inner := by
        rw [hd6]
        exact List.take_left' hlen
      rw [hts] at h2
      rw [h2] at hbad
      cases hbad
    · -- too long: position 26 must hold the close tag's `<`, but it is
      -- an inner character
      have h26 : (timeOpenTag ++ (inner ++ (timeCloseTag ++ suf)))[26]?
          = some '<' := by
        have := matchAt_close_char hm (j := 26) (by norm_num) (by norm_num)
        rw [this]
        rfl
      rw [List.getElem?_append_right (by rw [hO]; omega), hO,
        List.getElem?_append_left (by omega)] at h26
      have hmem : '<' ∈ inner := List.getElem?_mem h26
      rw [List.all_eq_true] at hfree
      exact absurd (hfree '<' hmem) (by decide)

/-- No occurrence of the pattern begins anywhere inside such a
non-matching `<time>` element region. -/
theorem region_no_match_inside {inner : List Char} (suf : List Char)
    (hfree : inner.all (fun c => !(c == '<')) = true)
    (hbad : tsShape inner = false) (k : Nat)
    (hk : k < (timeOpenTag ++ (inner ++ timeCloseTag)).length) :
    matchAt ((timeOpenTag ++ (inner ++ (timeCloseTag ++ suf))).drop k)
      = none := by
  cases hm : matchAt ((timeOpenTag ++ (inner ++ (timeCloseTag ++ suf))).drop k)
    with
  | none => rfl
  | some p =>
    exfalso
    obtain ⟨ts, rem⟩ := p
    have hO : timeOpenTag.length = 6 := rfl
    have hC : timeCloseTag.length = 7 := rfl
    have hkR : k < 6 + (inner.length + 7) := by
      simpa [List.length_append, hO, hC] using hk
    have hop0 : (timeOpenTag ++ (inner ++ (timeCloseTag ++ suf)))[k]?
        = some '<' := by
      have := matchAt_open_char hm (j := 0) (by norm_num)
      rwa [List.getElem?_drop, Nat.add_zero] at this
    have hop1 : (timeOpenTag ++ (inner ++ (timeCloseTag ++ suf)))[k + 1]?
        = some 't' := by
      have := matchAt_open_char hm (j := 1) (by norm_num)
      rwa [List.getElem?_drop] at this
    rcases Nat.eq_zero_or_pos k with hk0 | hkpos
    · subst hk0
      rw [List.drop_zero, matchAt_region_of_bad suf hfree hbad] at hm
      cases hm
    · by_cases hk6 : k < 6
      · rw [List.getElem?_append_left (by omega)] at hop0
        interval_cases k <;> exact absurd hop0 (by decide)
      · by_cases hkI : k < 6 + inner.length
        · rw [List.getElem?_append_right (by omega), hO,
            List.getElem?_append_left (by omega)] at hop0
          have hmem : '<' ∈ inner := List.getElem?_mem hop0
          rw [List.all_eq_true] at hfree
          exact absurd (hfree '<' hmem) (by decide)
        · by_cases hj0 : k = 6 + inner.length
          · -- the close tag's own `<`: the next character is `/`, not `t`
            rw [List.getElem?_append_right (by omega), hO,
              List.getElem?_append_right (by omega),
              List.getElem?_append_left (by rw [hC]; omega)] at hop1
            have he : k + 1 - 6 - inner.length = 1 := by omega
            rw [he] at hop1
            exact absurd hop1 (by decide)
          · -- later close-tag characters are never `<`
            rw [List.getElem?_append_right (by omega), hO,
              List.getElem?_append_right (by omega),
              List.getElem?_append_left (by rw [hC]; omega)] at hop0
            have hj7 : k - 6 - inner.length < 7 := by omega
            have hj1 : 1 ≤ k - 6 - inner.length := by omega
            set j := k - 6 - inner.length with hjdef
            interval_cases j <;> exact absurd hop0 (by decide)

/-- Every segment the scan produces is well formed. -/
theorem scanSegs_wf (l : List Char) : ∀ s ∈ scanSegs l, segWF s := by
  cases hml : matchAt l with
  | some p =>
    obtain ⟨ts, rem⟩ := p
    have h33 : 33 ≤ l.length := matchAt_some_length _ _ _ hml
    rw [scanSegs_of_match hml]
    intro s hs
    rcases List.mem_cons.mp hs with hs0 | hs1
    · subst hs0
      obtain ⟨-, h2, -, h4, -⟩ := matchAt_some _ _ _ hml
      show tsShape ts = true

      rw [h4]
      exact h2
    · exact scanSegs_wf (l.drop 33) s hs1
  | none =>
    match l with
    | [] => rw [scanSegs_nil]; intro s hs; exact absurd hs (by simp)
    | c :: rest =>
      rw [scanSegs_of_nomatch hml]
      intro s hs
      rcases List.mem_cons.mp hs with hs0 | hs1
      · subst hs0; trivial
      · exact scanSegs_wf rest s hs1
termination_by l.length
decreasing_by
  all_goals simp only [List.length_drop, List.length_cons]
  all_goals omega

/-! ## Helper lemmas for the session-level claims -/

/-- The save result (path, bytes, error) depends only on the source
path, the original raw text, and the cumulative shift — not on the
structural documents or the display flag. -/
theorem save_gpx_result_eq_of (app1 app2 : GPXShiftApp)
    (hpath : app1.original_gpx_path = app2.original_gpx_path)
    (htext : app1.original_gpx_text = app2.original_gpx_text)
    (hshift : app1.time_shift = app2.time_shift)
    (override : Option String) (env : Env)
    (write : SPath → List Char → Except String Unit) :
    (save_gpx app1 override env write).2 = (save_gpx app2 override env write).2 := by
  have hr : resolve_output_path app1 override env
      = resolve_output_path app2 override env := by
    unfold resolve_output_path get_default_output_path get_shift_hours
    rw [hpath, hshift]
  unfold save_gpx
  rw [hr, htext, hshift]
  split
  · rfl
  · split
    · rfl
    · split <;> rfl

theorem dropLast_nil_iff {α : Type} (l : List α) :
    l.dropLast = [] ↔ l.length ≤ 1 := by
  match l with
  | [] => simp
  | [_] => simp
  | _ :: _ :: _ =>
    simp only [List.dropLast, List.length_cons]
    constructor
    · intro h
      cases h
    · intro h
      omega

/-! ## The claims -/

/-- C3: for every document text D, the rewriter applied with a zero
duration returns text byte-identical to D. -/
theorem C3_zero_shift_identity (text : List Char) :
    shift_gpx_times text 0 = .ok text := by
  unfold shift_gpx_times
  simp

/-- C9: save never mutates the session: for every session state,
override, environment and write outcome (success, write failure, or
rewrite error), the state component returned by `save_gpx` — the
original text, parsed documents, cumulative shift and display flag —
is exactly the state passed in, so the session remains usable for
retry. -/
theorem C9_save_preserves_state (app : GPXShiftApp)
    (override : Option String) (env : Env)
    (write : SPath → List Char → Except String Unit) :
    (save_gpx app override env write).1 = app := by
  unfold save_gpx
  split
  · rfl
  · split
    · rfl
    · split <;> rfl

/-- C1: whenever save succeeds, the bytes written are exactly the
time-shift rewriter applied to the session's original raw text with the
current cumulative shift, the returned path is the resolved output
path, and the result is wholly independent of the structural parses
(so it is never a re-serialization of them). -/
theorem C1_save_writes_rewritten_original (app : GPXShiftApp)
    (override : Option String) (env : Env)
    (write : SPath → List Char → Except String Unit)
    (p : SPath) (t : List Char)
    (h : (save_gpx app override env write).2 = .ok (p, t)) :
    shift_gpx_times app.original_gpx_text app.time_shift = .ok t
      ∧ resolve_output_path app override env = .ok p
      ∧ ∀ g g',
        (save_gpx { app with original_gpx := g, current_gpx := g' }
          override env write).2 = (save_gpx app override env write).2 := by
  unfold save_gpx at h
  split at h
  · exact absurd h (by simp)
  · rename_i op hr
    split at h
    · exact absurd h (by simp)
    · rename_i st hs
      split at h
      · exact absurd h (by simp)
      · simp only [Except.ok.injEq, Prod.mk.injEq] at h
        obtain ⟨h1, h2⟩ := h
        subst h1
        subst h2
        exact ⟨hs, hr, fun g g' =>
          save_gpx_result_eq_of { app with original_gpx := g, current_gpx := g' }
            app rfl rfl rfl override env write⟩

/-- Witness for C1 at a concrete session: a `+3 h` session on a sample
document saves the rewritten original text to the default path. -/
theorem C1_witness :
    (save_gpx morningApp none envHome writeOk).2
        = .ok (morningOutPath, sampleShiftedText)
      ∧ (shift_gpx_times morningApp.original_gpx_text morningApp.time_shift
          = .ok sampleShiftedText
        ∧ resolve_output_path morningApp none envHome = .ok morningOutPath
        ∧ ∀ g g',
          (save_gpx { morningApp with original_gpx := g, current_gpx := g' }
            none envHome writeOk).2
          = (save_gpx morningApp none envHome writeOk).2) :=
  ⟨rfl, C1_save_writes_rewritten_original morningApp none envHome writeOk
    morningOutPath sampleShiftedText rfl⟩

/-- C4: adjusting by `a` then by `b` from a fresh session yields the
very same session state — hence the same save output — as a single
adjustment by `a + b` on a fresh session over the same document. -/
theorem C4_adjust_additive (path : String) (text : List Char)
    (parsed : GPXDoc) (a b : Int) (override : Option String) (env : Env)
    (write : SPath → List Char → Except String Unit) :
    save_gpx (shift_time (shift_time (GPXShiftApp.init path text parsed) a) b)
        override env write
      = save_gpx (shift_time (GPXShiftApp.init path text parsed) (a + b))
        override env write := by
  have harith : (0 : Int) + a * 3600 + b * 3600 = 0 + (a + b) * 3600 := by
    ring
  have happ : shift_time (shift_time (GPXShiftApp.init path text parsed) a) b
      = shift_time (GPXShiftApp.init path text parsed) (a + b) := by
    simp only [shift_time, GPXShiftApp.init]
    rw [harith]
  rw [happ]

/-- C5: an adjustment by `h` followed by one by `-h` restores the
cumulative shift to exactly its prior value, and the save output (path,
bytes, or error) equals what saving the untouched session produces. -/
theorem C5_adjust_inverse_cancellation (app : GPXShiftApp) (h : Int)
    (override : Option String) (env : Env)
    (write : SPath → List Char → Except String Unit) :
    (shift_time (shift_time app h) (-h)).time_shift = app.time_shift
      ∧ (save_gpx (shift_time (shift_time app h) (-h)) override env write).2
        = (save_gpx app override env write).2 := by
  have hts : (shift_time (shift_time app h) (-h)).time_shift
      = app.time_shift := by
    simp only [shift_time]
    ring
  exact ⟨hts,
    save_gpx_result_eq_of (shift_time (shift_time app h) (-h)) app
      rfl rfl hts override env write⟩

/-- C2: for every document text and nonzero shift, the rewriter's
output arises from a segmentation of the input into single unmatched
characters and full `<time>…</time>` pattern matches, in which only the
20 timestamp characters of the matched elements are replaced — every
other byte (whitespace, attributes, element order, unmatched elements)
appears verbatim, in order, in the output. -/
theorem C2_format_preservation (delta : Int) (text out : List Char)
    (hdelta : delta ≠ 0)
    (h : shift_gpx_times text delta = .ok out) :
    ∃ segs : List Seg,
      text = renderSegs segs ∧ shiftSegs delta segs = .ok out
        ∧ ∀ s ∈ segs, segWF s := by
  refine ⟨scanSegs text, (renderSegs_scanSegs text).symm, ?_, scanSegs_wf text⟩
  rw [← subShift_eq_shiftSegs]
  unfold shift_gpx_times at h
  rw [if_neg hdelta] at h
  exact h

/-- Witness for C2 at a concrete one-hour shift of a document with one
matched element between two literal bytes. -/
theorem C2_witness :
    ((3600 : Int) ≠ 0 ∧ shift_gpx_times c2Text 3600 = .ok c2Out)
      ∧ ∃ segs : List Seg,
        c2Text = renderSegs segs ∧ shiftSegs 3600 segs = .ok c2Out
          ∧ ∀ s ∈ segs, segWF s :=
  ⟨⟨by decide, rfl⟩, C2_format_preservation 3600 c2Text c2Out (by decide) rfl⟩

/-- C6: a document containing a substring that matches the element
pattern but whose timestamp fails strict parsing makes rewriting with a
nonzero shift fail with an error, and save on any session holding that
document and shift surfaces an error to the caller — the occurrence is
never silently dropped. -/
theorem C6_malformed_timestamp_fails (delta : Int) (pre ts suf : List Char)
    (hdelta : delta ≠ 0) (hshape : tsShape ts = true)
    (hbadparse : parseTs ts = none) :
    (∃ e, shift_gpx_times
        (pre ++ (timeOpenTag ++ (ts ++ (timeCloseTag ++ suf)))) delta
      = .error e)
      ∧ ∀ app override env write,
        app.original_gpx_text
            = pre ++ (timeOpenTag ++ (ts ++ (timeCloseTag ++ suf)))
          → app.time_shift = delta
          → ∃ e, (save_gpx app override env write).2 = .error e := by
  have hmain : ∃ e, shift_gpx_times
      (pre ++ (timeOpenTag ++ (ts ++ (timeCloseTag ++ suf)))) delta
      = .error e := by
    unfold shift_gpx_times
    rw [if_neg hdelta]
    cases hres : subShift delta
        (pre ++ (timeOpenTag ++ (ts ++ (timeCloseTag ++ suf)))) with
    | error e => exact ⟨e, rfl⟩
    | ok out =>
      exfalso
      have hmatch : matchAt
          ((pre ++ (timeOpenTag ++ (ts ++ (timeCloseTag ++ suf)))).drop
            pre.length) = some (ts, suf) := by
        rw [List.drop_left]
        exact matchAt_region ts suf hshape
      exact subShift_ok_valid delta _ out hres pre.length ts suf hmatch
        hbadparse
  refine ⟨hmain, ?_⟩
  intro app override env write htext hshift
  unfold save_gpx
  split
  · rename_i e heq
    exact ⟨e, rfl⟩
  · obtain ⟨e, he⟩ := hmain
    rw [htext, hshift, he]
    exact ⟨e, rfl⟩

/-- Witness for C6: month 13 matches the digit pattern but fails
parsing; a one-hour shift on a document embedding it errors out. -/
theorem C6_witness :
    ((3600 : Int) ≠ 0 ∧ tsShape c6BadTs = true ∧ parseTs c6BadTs = none)
      ∧ ((∃ e, shift_gpx_times
          ("a".data ++ (timeOpenTag ++ (c6BadTs ++ (timeCloseTag ++ "b".data))))
          3600 = .error e)
        ∧ ∀ app override env write,
          app.original_gpx_text
              = "a".data ++ (timeOpenTag ++ (c6BadTs ++ (timeCloseTag ++ "b".data)))
            → app.time_shift = 3600
            → ∃ e, (save_gpx app override env write).2 = .error e) :=
  ⟨⟨by decide, by decide, by decide⟩,
    C6_malformed_timestamp_fails 3600 "a".data c6BadTs "b".data
      (by decide) (by decide) (by decide)⟩

/-- C7: the default output path is the source directory joined with
`stem ++ tag ++ extension`, the tag being `_p{N}` for a nonnegative
floor-divided hour count and `_m{N}` otherwise (the session's source
path always has a final component, having named a readable file). -/
theorem C7_default_output_path (app : GPXShiftApp)
    (h : app.original_gpx_path.parts ≠ []) :
    get_default_output_path app = some (defaultOutputPathSpec app) := by
  unfold get_default_output_path defaultOutputPathSpec withName SPath.join
    SPath.parent get_shift_hours
  rw [if_neg h]
  by_cases hs : (0 : Int) ≤ Int.fdiv app.time_shift 3600
  all_goals simp only [hs, if_true, if_false, Bool.false_eq_true]
  all_goals rfl

/-- Witness for C7 at the two specification examples: a `+3 h` shift on
`morning_run.gpx` and a `-2 h` shift on `evening_run.gpx`. -/
theorem C7_witness :
    (morningApp.original_gpx_path.parts ≠ []
      ∧ get_default_output_path morningApp
          = some (defaultOutputPathSpec morningApp)
      ∧ defaultOutputPathSpec morningApp
          = { absolute := true, parts := ["tmp", "morning_run_p3.gpx"] })
    ∧ (eveningApp.original_gpx_path.parts ≠ []
      ∧ get_default_output_path eveningApp
          = some (defaultOutputPathSpec eveningApp)
      ∧ defaultOutputPathSpec eveningApp
          = { absolute := true, parts := ["tmp", "evening_run_m2.gpx"] }) :=
  ⟨⟨by decide, C7_default_output_path morningApp (by decide), by decide⟩,
    ⟨by decide, C7_default_output_path eveningApp (by decide), by decide⟩⟩

/-- C8, counterexample to the claim as stated: the override `"~"` is
not absolute and has no directory component, yet save does not place it
in the source file's directory — `os.path.expanduser` first turns it
into the home directory, which is then used as an absolute path. -/
theorem C8_counterexample :
    (parsePath "~").absolute = false
      ∧ (parsePath "~").parts.length ≤ 1
      ∧ resolve_output_path tildeApp (some "~") envHome
          = .ok { absolute := true, parts := ["home", "user"] }
      ∧ ({ absolute := true, parts := ["home", "user"] } : SPath)
          ≠ SPath.join (SPath.parent tildeApp.original_gpx_path)
            (parsePath "~") :=
  ⟨rfl, by decide, rfl, by decide⟩

/-- C8 as amended: the three-way resolution policy holds for the
*tilde-expanded* override — if the expanded override is absolute it is
used verbatim, else a bare name goes next to the source file, else the
path is resolved against the current working directory. -/
theorem C8_override_resolution_amended (app : GPXShiftApp) (s : String)
    (env : Env) (hs : s ≠ "") :
    resolve_output_path app (some s) env
      = .ok (resolveOverrideSpec app s env) := by
  unfold resolve_output_path resolveOverrideSpec SPath.is_absolute
  dsimp only
  rw [if_neg hs]
  by_cases habs : (parsePath (expanduser env s)).absolute
  · rw [if_pos habs, if_pos habs]
  · rw [if_neg habs, if_neg habs]
    have habs' : (parsePath (expanduser env s)).absolute = false :=
      Bool.not_eq_true _ ▸ habs
    by_cases hone : (parsePath (expanduser env s)).parts.length ≤ 1
    · have hpar : SPath.parent (parsePath (expanduser env s))
          = parsePath "." := by
        show SPath.mk (parsePath (expanduser env s)).absolute
          (parsePath (expanduser env s)).parts.dropLast = parsePath "."
        rw [habs', (dropLast_nil_iff _).mpr hone]
        rfl
      rw [if_pos hpar, if_pos hone]
    · have hpar : ¬ SPath.parent (parsePath (expanduser env s))
          = parsePath "." := by
        intro heq
        have hdl : (parsePath (expanduser env s)).parts.dropLast
            = ([] : List String) := congrArg SPath.parts heq
        exact hone ((dropLast_nil_iff _).mp hdl)
      rw [if_neg hpar, if_neg hone]

/-- Witness for the amended C8 at the concrete tilde override. -/
theorem C8_witness :
    ("~" ≠ "")
      ∧ resolve_output_path tildeApp (some "~") envHome
        = .ok (resolveOverrideSpec tildeApp "~" envHome) :=
  ⟨by decide, C8_override_resolution_amended tildeApp "~" envHome (by decide)⟩

/-- C10: a `<time>` element whose inner text (free of `<`, as element
content is) is not the exact second-precision pattern is left
byte-identical by any nonzero shift and raises no error itself: the
document around it is processed exactly as if the element were a block
of plain text. -/
theorem C10_nonmatching_time_left_intact (delta : Int)
    (pre inner suf : List Char) (hdelta : delta ≠ 0)
    (hfree : inner.all (fun c => !(c == '<')) = true)
    (hbad : tsShape inner = false) :
    shift_gpx_times
        (pre ++ ((timeOpenTag ++ (inner ++ timeCloseTag)) ++ suf)) delta
      = match subShift delta pre with
        | .error e => .error e
        | .ok x =>
          match subShift delta suf with
          | .error e => .error e
          | .ok y =>
            .ok (x ++ ((timeOpenTag ++ (inner ++ timeCloseTag)) ++ y)) := by
  unfold shift_gpx_times
  rw [if_neg hdelta]
  have hR : 1 ≤ (timeOpenTag ++ (inner ++ timeCloseTag)).length := by
    simp [timeOpenTag]
  have hcut : ∀ k ts rem, k < pre.length →
      matchAt ((pre ++ ((timeOpenTag ++ (inner ++ timeCloseTag)) ++ suf)).drop
        k) = some (ts, rem) → k + 33 ≤ pre.length := by
    intro k ts rem hk hm
    by_cases hcross : k + 33 ≤ pre.length
    · exact hcross
    · exfalso
      have hPopen : (pre ++ ((timeOpenTag ++ (inner ++ timeCloseTag)) ++ suf))[pre.length]?
          = some '<' := by
        rw [List.getElem?_append_right (le_refl _), Nat.sub_self]
        rfl
      have hPt : (pre ++ ((timeOpenTag ++ (inner ++ timeCloseTag)) ++ suf))[pre.length + 1]?
          = some 't' := by
        rw [List.getElem?_append_right (by omega)]
        have he : pre.length + 1 - pre.length = 1 := by omega
        rw [he]
        rfl
      refine matchAt_no_open_inside hm (o := pre.length - k) (by omega)
        (by omega) ?_ ?_
      · rw [List.getElem?_drop, show k + (pre.length - k) = pre.length
          from by omega]
        exact hPopen
      · rw [List.getElem?_drop, show k + (pre.length - k + 1) = pre.length + 1
          from by omega]
        exact hPt
  rw [subShift_append delta pre ((timeOpenTag ++ (inner ++ timeCloseTag)) ++ suf)
    hcut]
  have hreg : subShift delta ((timeOpenTag ++ (inner ++ timeCloseTag)) ++ suf)
      = match subShift delta suf with
        | .error e => .error e
        | .ok y => .ok ((timeOpenTag ++ (inner ++ timeCloseTag)) ++ y) := by
    refine subShift_prepend_lit delta (timeOpenTag ++ (inner ++ timeCloseTag))
      suf ?_
    intro k hk
    have hassoc : (timeOpenTag ++ (inner ++ timeCloseTag)) ++ suf
        = timeOpenTag ++ (inner ++ (timeCloseTag ++ suf)) := by
      simp [List.append_assoc]
    rw [hassoc]
    exact region_no_match_inside suf hfree hbad k hk
  rw [hreg]
  cases subShift delta pre with
  | error e => rfl
  | ok x =>
    cases subShift delta suf with
    | error e => rfl
    | ok y => rfl

/-- Witness for C10: a fractional-seconds element survives a one-hour
shift byte-identically while a matching element after it is shifted. -/
theorem C10_witness :
    ((3600 : Int) ≠ 0
      ∧ c10Inner.all (fun c => !(c == '<')) = true
      ∧ tsShape c10Inner = false)
      ∧ shift_gpx_times
          ("x".data ++ ((timeOpenTag ++ (c10Inner ++ timeCloseTag))
            ++ "<time>2025-01-01T00:00:00Z</time>".data)) 3600
        = match subShift 3600 "x".data with
          | .error e => .error e
          | .ok x =>
            match subShift 3600 "<time>2025-01-01T00:00:00Z</time>".data with
            | .error e => .error e
            | .ok y =>
              .ok (x ++ ((timeOpenTag ++ (c10Inner ++ timeCloseTag)) ++ y)) :=
  ⟨⟨by decide, by decide, by decide⟩,
    C10_nonmatching_time_left_intact 3600 "x".data c10Inner
      "<time>2025-01-01T00:00:00Z</time>".data (by decide) (by decide)
      (by decide)⟩

end GpxShift
